import Mathlib

/-!
Verification of the `LineBuffer` core (src/src/core/line-buffer.ts).

Embedding conventions:
* A JavaScript string is modelled as a `List Nat` of UTF-16 code units
  (every JS string index — `length`, `substring`, `charCodeAt`,
  `indexOf`, insertion points — counts UTF-16 code units).
* `Array.from(s)` splits a JS string at code-point boundaries, joining a
  high surrogate followed by a low surrogate into one element; this is
  `arrayFrom` below.
* The regex `/\b\w+|\s+|[^\w\s]/g` used by `splitWordBoundaries` (without
  the `u` flag) works on code units: `\w` is exactly `[A-Za-z0-9_]`, `\s`
  is the JS whitespace set, and the match list tokenizes the whole string
  into maximal `\w`-runs, maximal `\s`-runs and single remaining code
  units (alternatives are tried in that order at each position; a `\w`
  code unit is always preceded by start-of-string or a non-`\w` unit when
  the scanner reaches it, so `\b` always holds there and greedy `\w+`
  takes the maximal run; likewise greedy `\s+`).  `tokenize` below
  produces exactly that token list.
* `s.substring(a, b)` clamps both arguments to `[0, length]` and swaps
  them if needed; on naturals this equals `(s.take (max a b)).drop (min a b)`
  because `take`/`drop` already clamp at the length.
* JS `indexOf`/`lastIndexOf` return `-1` when absent; we model them with
  `Option Nat` and translate the `-1` checks of the source accordingly.
* `clearRangeSafe` and `replaceRange` are additionally modelled as
  standalone functions over `Int` arguments (`clearRangeSafeFn`,
  `replaceRangeFn`) so that statements about arbitrary integer arguments
  can be made; the `LineBuffer` methods instantiate them at naturals
  (the only way the rest of the class calls them).
-/

/-- High surrogate code unit (0xD800–0xDBFF). -/
def isHighSurrogate (u : Nat) : Bool := 0xD800 ≤ u && u ≤ 0xDBFF

/-- Low surrogate code unit (0xDC00–0xDFFF). -/
def isLowSurrogate (u : Nat) : Bool := 0xDC00 ≤ u && u ≤ 0xDFFF

/-- `Array.from(string)`: split a code-unit sequence at code-point
boundaries; a high surrogate directly followed by a low surrogate forms a
two-unit element, every other unit stands alone. -/
def arrayFrom : List Nat → List (List Nat)
  | [] => []
  | [u] => [[u]]
  | u :: v :: rest =>
    if isHighSurrogate u && isLowSurrogate v then [u, v] :: arrayFrom rest
    else [u] :: arrayFrom (v :: rest)

/-- Cumulative boundary offsets: `graphemeIndicesFrom pos cs` is
`[pos, pos + |c₀|, pos + |c₀| + |c₁|, …]`, one entry per prefix of `cs`. -/
def graphemeIndicesFrom : Nat → List (List Nat) → List Nat
  | pos, [] => [pos]
  | pos, c :: cs => pos :: graphemeIndicesFrom (pos + c.length) cs

/-- `getGraphemeIndices` of the source: `[0]` followed by the cumulative
code-unit offset after each element of `Array.from(this.lines)`. -/
def getGraphemeIndices (lines : List Nat) : List Nat :=
  graphemeIndicesFrom 0 (arrayFrom lines)

/-- JS regex `\s` (code-unit level): tab, LF, VT, FF, CR, space, NBSP and
the Unicode space separators, LS, PS, NNBSP, MMSP, ideographic space, BOM. -/
def isSpaceCU (u : Nat) : Bool :=
  u == 9 || u == 10 || u == 11 || u == 12 || u == 13 || u == 32 ||
  u == 0xA0 || u == 0x1680 || (0x2000 ≤ u && u ≤ 0x200A) ||
  u == 0x2028 || u == 0x2029 || u == 0x202F || u == 0x205F ||
  u == 0x3000 || u == 0xFEFF

/-- JS regex `\w` without the `u` flag: `[A-Za-z0-9_]`. -/
def isWordCU (u : Nat) : Bool :=
  (48 ≤ u && u ≤ 57) || (65 ≤ u && u ≤ 90) || (97 ≤ u && u ≤ 122) || u == 95

/-- Head of the list satisfies `p` (false on the empty list). -/
def headIs (p : Nat → Bool) : List Nat → Bool
  | [] => false
  | v :: _ => p v

/-- Token list of the regex `/\b\w+|\s+|[^\w\s]/g`: maximal `\w`-runs,
maximal `\s`-runs, and single code units for everything else (including
each half of a surrogate pair, since the regex has no `u` flag). -/
def tokenize : List Nat → List (List Nat)
  | [] => []
  | u :: rest =>
    match tokenize rest with
    | [] => [[u]]
    | t :: ts =>
      if (isWordCU u && headIs isWordCU t) || (isSpaceCU u && headIs isSpaceCU t) then
        (u :: t) :: ts
      else [u] :: t :: ts

/-- Pair each token with its starting offset (the source accumulates
`currentIndex` over the match list). -/
def withIndices : Nat → List (List Nat) → List (Nat × List Nat)
  | _, [] => []
  | i, t :: ts => (i, t) :: withIndices (i + t.length) ts

/-- `splitWordBoundaries(text)` of the source: the regex token list of
`text`, each token paired with its starting code-unit offset. -/
def splitWordBoundaries (text : List Nat) : List (Nat × List Nat) :=
  withIndices 0 (tokenize text)

/-- `isWhitespaceStr(s)`: the regex test `/^\s*$/`, i.e. every code unit
of `s` is JS whitespace (true on the empty string). -/
def isWhitespaceStr (s : List Nat) : Bool := s.all isSpaceCU

/-- JS `s.substring(a, b)`: both indices clamped to `[0, length]` and
swapped if out of order.  On naturals this is `drop (min a b)` of
`take (max a b)` because `take`/`drop` clamp at the length themselves. -/
def jsSubstring (s : List Nat) (a b : Nat) : List Nat :=
  (s.take (max a b)).drop (min a b)

/-- JS `s.lastIndexOf(c)` for a single code unit, as an `Option`
(the source's `-1` becomes `none`). -/
def jsLastIndexOf? (l : List Nat) (c : Nat) : Option Nat :=
  (l.reverse.findIdx? (· == c)).map (fun i => l.length - 1 - i)

/-- JS `s.lastIndexOf(c, fromIndex)`: a negative `fromIndex` is treated
as `0`; only occurrences at index ≤ `fromIndex` count. -/
def jsLastIndexOfFrom? (l : List Nat) (c : Nat) (f : Int) : Option Nat :=
  jsLastIndexOf? (l.take (f.toNat + 1)) c

/-- The `LineBuffer` state: the text `lines` as UTF-16 code units and the
cursor `insertionPoint` (a code-unit offset).  All states exercised by the
claims have a natural-number cursor; `clearRangeSafeFn`/`replaceRangeFn`
below additionally model the two range primitives over `Int`. -/
structure LineBuffer where
  lines : List Nat
  insertionPoint : Nat
deriving DecidableEq

/-- `LineBuffer.new()`: empty buffer, cursor 0. -/
def LineBuffer.mkNew : LineBuffer := ⟨[], 0⟩

/-- `insertStr(string)`: splice `s` in at the cursor and advance the
cursor by `s.length`. -/
def LineBuffer.insertStr (b : LineBuffer) (s : List Nat) : LineBuffer :=
  ⟨b.lines.take b.insertionPoint ++ s ++ b.lines.drop b.insertionPoint,
   b.insertionPoint + s.length⟩

/-- `LineBuffer.from(input)`: a fresh buffer with `input` inserted
(cursor ends up at `input.length`). -/
def LineBuffer.fromString (input : List Nat) : LineBuffer :=
  LineBuffer.mkNew.insertStr input

/-- `isValid()`: the cursor is ≤ the length, and sits on an element of
`getGraphemeIndices` (or at the very end). -/
def LineBuffer.isValid (b : LineBuffer) : Bool :=
  if b.insertionPoint > b.lines.length then false
  else
    (getGraphemeIndices b.lines).any (· == b.insertionPoint) ||
      b.insertionPoint == b.lines.length

/-- `moveToStart()`. -/
def LineBuffer.moveToStart (b : LineBuffer) : LineBuffer := ⟨b.lines, 0⟩

/-- `moveToEnd()`. -/
def LineBuffer.moveToEnd (b : LineBuffer) : LineBuffer :=
  ⟨b.lines, b.lines.length⟩

/-- `moveToLineStart()`: cursor to just after the last `\n` before the
cursor (0 when there is none; the source's `lastNewline === -1 ? 0 :
lastNewline + 1`). -/
def LineBuffer.moveToLineStart (b : LineBuffer) : LineBuffer :=
  ⟨b.lines,
   match jsLastIndexOf? (b.lines.take b.insertionPoint) 10 with
   | none => 0
   | some i => i + 1⟩

/-- `findCurrentLineEnd()`: offset of the next `\n` from the cursor
(`lines.length` when none), stepping back one position when the unit
directly before that `\n` is `\r` (code 13). -/
def LineBuffer.findCurrentLineEnd (b : LineBuffer) : Nat :=
  match (b.lines.drop b.insertionPoint).findIdx? (· == 10) with
  | none => b.lines.length
  | some nlIdx =>
    let absoluteIndex := nlIdx + b.insertionPoint
    if 0 < absoluteIndex ∧ b.lines.get? (absoluteIndex - 1) = some 13 then
      absoluteIndex - 1
    else absoluteIndex

/-- `moveToLineEnd()`. -/
def LineBuffer.moveToLineEnd (b : LineBuffer) : LineBuffer :=
  ⟨b.lines, b.findCurrentLineEnd⟩

/-- `graphemeRightIndex()`: the boundary after the cursor's entry in
`getGraphemeIndices`; `lines.length` when the cursor is not a boundary
(JS `findIndex` gives `-1`; Lean's `findIdx` gives the list length) or
has no successor. -/
def LineBuffer.graphemeRightIndex (b : LineBuffer) : Nat :=
  let idx := getGraphemeIndices b.lines
  let fi := idx.findIdx (· == b.insertionPoint)
  if fi = idx.length ∨ fi + 1 ≥ idx.length then b.lines.length
  else idx.getD (fi + 1) 0

/-- `graphemeLeftIndex()`: the boundary before the cursor's entry in
`getGraphemeIndices`; 0 when the cursor is not found or is the first
boundary (the source's `currentIndex <= 0` check, with JS `findIndex`
returning `-1` modelled by Lean's `findIdx` returning the length). -/
def LineBuffer.graphemeLeftIndex (b : LineBuffer) : Nat :=
  let idx := getGraphemeIndices b.lines
  let fi := idx.findIdx (· == b.insertionPoint)
  if fi = idx.length ∨ fi = 0 then 0
  else idx.getD (fi - 1) 0

/-- `moveRight()`. -/
def LineBuffer.moveRight (b : LineBuffer) : LineBuffer :=
  ⟨b.lines, b.graphemeRightIndex⟩

/-- `moveLeft()`. -/
def LineBuffer.moveLeft (b : LineBuffer) : LineBuffer :=
  ⟨b.lines, b.graphemeLeftIndex⟩

/-- `graphemeRight()`: the text between the cursor and
`graphemeRightIndex`. -/
def LineBuffer.graphemeRight (b : LineBuffer) : List Nat :=
  jsSubstring b.lines b.insertionPoint b.graphemeRightIndex

/-- `graphemeLeft()`: the text between `graphemeLeftIndex` and the
cursor. -/
def LineBuffer.graphemeLeft (b : LineBuffer) : List Nat :=
  jsSubstring b.lines b.graphemeLeftIndex b.insertionPoint

/-- Loop of `wordRightIndex`: first non-whitespace token `(index, word)`
gives `insertionPoint + index + word.length`; otherwise `lines.length`. -/
def LineBuffer.wordRightIndex (b : LineBuffer) : Nat :=
  let words := splitWordBoundaries (b.lines.drop b.insertionPoint)
  match words.find? (fun t => !isWhitespaceStr t.2) with
  | some t => b.insertionPoint + t.1 + t.2.length
  | none => b.lines.length

/-- Loop of `wordRightStartIndex`: first non-whitespace token gives
`insertionPoint + index`. -/
def LineBuffer.wordRightStartIndex (b : LineBuffer) : Nat :=
  let words := splitWordBoundaries (b.lines.drop b.insertionPoint)
  match words.find? (fun t => !isWhitespaceStr t.2) with
  | some t => b.insertionPoint + t.1
  | none => b.lines.length

/-- Loop of `bigWordRightStartIndex`: tracks `foundWs` and returns at the
first non-whitespace token after some whitespace token. -/
def bigWordRightStartLoop (ip len : Nat) (foundWs : Bool) :
    List (Nat × List Nat) → Nat
  | [] => len
  | t :: rest =>
    let fw := foundWs || isWhitespaceStr t.2
    if fw && !isWhitespaceStr t.2 then ip + t.1
    else bigWordRightStartLoop ip len fw rest

/-- `bigWordRightStartIndex()`. -/
def LineBuffer.bigWordRightStartIndex (b : LineBuffer) : Nat :=
  bigWordRightStartLoop b.insertionPoint b.lines.length false
    (splitWordBoundaries (b.lines.drop b.insertionPoint))

/-- Loop of `wordRightEndIndex` / `bigWordRightEndIndex` (the two source
methods have identical bodies): remembers whether a non-whitespace token
was seen and returns `insertionPoint + index` at the first whitespace
token after that; otherwise `lines.length`. -/
def wordRightEndLoop (ip len : Nat) (foundNonWs : Bool) :
    List (Nat × List Nat) → Nat
  | [] => len
  | t :: rest =>
    if !isWhitespaceStr t.2 then wordRightEndLoop ip len true rest
    else if foundNonWs then ip + t.1
    else wordRightEndLoop ip len foundNonWs rest

/-- `wordRightEndIndex()`. -/
def LineBuffer.wordRightEndIndex (b : LineBuffer) : Nat :=
  wordRightEndLoop b.insertionPoint b.lines.length false
    (splitWordBoundaries (b.lines.drop b.insertionPoint))

/-- `bigWordRightEndIndex()` (same body as `wordRightEndIndex` in the
source). -/
def LineBuffer.bigWordRightEndIndex (b : LineBuffer) : Nat :=
  wordRightEndLoop b.insertionPoint b.lines.length false
    (splitWordBoundaries (b.lines.drop b.insertionPoint))

/-- Loop of `wordLeftIndex`: scanning the tokens of the text before the
cursor from the last one backwards, the first non-whitespace token gives
its start offset; otherwise 0.  Scanning backwards is `find?` on the
reversed list. -/
def LineBuffer.wordLeftIndex (b : LineBuffer) : Nat :=
  let words := splitWordBoundaries (b.lines.take b.insertionPoint)
  match words.reverse.find? (fun t => !isWhitespaceStr t.2) with
  | some t => t.1
  | none => 0

/-- Loop of `bigWordLeftIndex`: backwards scan with a `foundWs` flag,
on the reversed token list. -/
def bigWordLeftLoop (foundWs : Bool) : List (Nat × List Nat) → Nat
  | [] => 0
  | t :: rest =>
    let fw := foundWs || isWhitespaceStr t.2
    if fw && !isWhitespaceStr t.2 then t.1
    else bigWordLeftLoop fw rest

/-- `bigWordLeftIndex()`. -/
def LineBuffer.bigWordLeftIndex (b : LineBuffer) : Nat :=
  bigWordLeftLoop false
    (splitWordBoundaries (b.lines.take b.insertionPoint)).reverse

/-- `moveWordLeft()`. -/
def LineBuffer.moveWordLeft (b : LineBuffer) : LineBuffer :=
  ⟨b.lines, b.wordLeftIndex⟩

/-- `moveBigWordLeft()`. -/
def LineBuffer.moveBigWordLeft (b : LineBuffer) : LineBuffer :=
  ⟨b.lines, b.bigWordLeftIndex⟩

/-- `moveWordRight()`. -/
def LineBuffer.moveWordRight (b : LineBuffer) : LineBuffer :=
  ⟨b.lines, b.wordRightIndex⟩

/-- `moveWordRightStart()`. -/
def LineBuffer.moveWordRightStart (b : LineBuffer) : LineBuffer :=
  ⟨b.lines, b.wordRightStartIndex⟩

/-- `moveBigWordRightStart()`. -/
def LineBuffer.moveBigWordRightStart (b : LineBuffer) : LineBuffer :=
  ⟨b.lines, b.bigWordRightStartIndex⟩

/-- `moveWordRightEnd()`. -/
def LineBuffer.moveWordRightEnd (b : LineBuffer) : LineBuffer :=
  ⟨b.lines, b.wordRightEndIndex⟩

/-- `moveBigWordRightEnd()`. -/
def LineBuffer.moveBigWordRightEnd (b : LineBuffer) : LineBuffer :=
  ⟨b.lines, b.bigWordRightEndIndex⟩

/-- `clearRangeSafe(start, end)` over arbitrary integer arguments, acting
on `(lines, insertionPoint)`: swap when `start > end`; return unchanged
when `start ≥ lines.length`; clamp `end` to the length; remove the code
units in `[start, end)` (`substring(0, start) + substring(end)`); then
adjust the cursor exactly as the source does. -/
def clearRangeSafeFn (lines : List Nat) (ip : Int) (start0 end0 : Int) :
    List Nat × Int :=
  let s := if start0 > end0 then end0 else start0
  let e := if start0 > end0 then start0 else end0
  if s ≥ (lines.length : Int) then (lines, ip)
  else
    let e2 := min e (lines.length : Int)
    let newLines := lines.take s.toNat ++ lines.drop e2.toNat
    let newIp :=
      if ip > s then (if ip > e2 then ip - (e2 - s) else s) else ip
    (newLines, newIp)

/-- `replaceRange(start, end, replaceWith)` over arbitrary integer
arguments: same normalization, early return and clamping as
`clearRangeSafeFn`, splicing `repl` in place of `[start, end)`; the
cursor past the range moves to `start + repl.length + (ip - end)`, a
cursor inside `(start, end]` to `start + repl.length`. -/
def replaceRangeFn (lines : List Nat) (ip : Int) (start0 end0 : Int)
    (repl : List Nat) : List Nat × Int :=
  let s := if start0 > end0 then end0 else start0
  let e := if start0 > end0 then start0 else end0
  if s ≥ (lines.length : Int) then (lines, ip)
  else
    let e2 := min e (lines.length : Int)
    let newLines := lines.take s.toNat ++ repl ++ lines.drop e2.toNat
    let newIp :=
      if ip > s then
        (if ip > e2 then s + (repl.length : Int) + (ip - e2)
         else s + (repl.length : Int))
      else ip
    (newLines, newIp)

/-- The `clearRangeSafe` method: the class always calls it with natural
indices and a natural cursor, under which `clearRangeSafeFn` returns a
natural cursor again (`Int.toNat` is exact here). -/
def LineBuffer.clearRangeSafe (b : LineBuffer) (s e : Nat) : LineBuffer :=
  let r := clearRangeSafeFn b.lines (b.insertionPoint : Int) (s : Int) (e : Int)
  ⟨r.1, r.2.toNat⟩

/-- The `replaceRange` method at natural indices. -/
def LineBuffer.replaceRange (b : LineBuffer) (s e : Nat) (repl : List Nat) :
    LineBuffer :=
  let r := replaceRangeFn b.lines (b.insertionPoint : Int) (s : Int) (e : Int) repl
  ⟨r.1, r.2.toNat⟩

/-- `clear()`. -/
def LineBuffer.clear (_ : LineBuffer) : LineBuffer := ⟨[], 0⟩

/-- `clearToEnd()`: keep the text before the cursor; cursor unchanged. -/
def LineBuffer.clearToEnd (b : LineBuffer) : LineBuffer :=
  ⟨b.lines.take b.insertionPoint, b.insertionPoint⟩

/-- `clearToLineEnd()`: remove `[insertionPoint, findCurrentLineEnd())`;
cursor unchanged. -/
def LineBuffer.clearToLineEnd (b : LineBuffer) : LineBuffer :=
  ⟨b.lines.take b.insertionPoint ++ b.lines.drop b.findCurrentLineEnd,
   b.insertionPoint⟩

/-- `clearToInsertionPoint()`: keep the text from the cursor on; cursor
to 0. -/
def LineBuffer.clearToInsertionPoint (b : LineBuffer) : LineBuffer :=
  ⟨b.lines.drop b.insertionPoint, 0⟩

/-- `deleteLeftGrapheme()`: `clearRangeSafe(graphemeLeftIndex(), ip)`. -/
def LineBuffer.deleteLeftGrapheme (b : LineBuffer) : LineBuffer :=
  b.clearRangeSafe b.graphemeLeftIndex b.insertionPoint

/-- `deleteRightGrapheme()`: `clearRangeSafe(ip, graphemeRightIndex())`. -/
def LineBuffer.deleteRightGrapheme (b : LineBuffer) : LineBuffer :=
  b.clearRangeSafe b.insertionPoint b.graphemeRightIndex

/-- `deleteWordLeft()`. -/
def LineBuffer.deleteWordLeft (b : LineBuffer) : LineBuffer :=
  b.clearRangeSafe b.wordLeftIndex b.insertionPoint

/-- `deleteWordRight()`. -/
def LineBuffer.deleteWordRight (b : LineBuffer) : LineBuffer :=
  b.clearRangeSafe b.insertionPoint b.wordRightIndex

/-- `swapGraphemes()`: early return when `graphemeRightIndex() ≥ length`;
then the JS truthiness guard `if (leftGrapheme && rightGrapheme)` (an
empty string is falsy) and two `replaceRange` calls, the second using the
insertion point updated by the first and the previously computed
`rightIndex`. -/
def LineBuffer.swapGraphemes (b : LineBuffer) : LineBuffer :=
  let rightIndex := b.graphemeRightIndex
  if rightIndex ≥ b.lines.length then b
  else
    let leftGrapheme := b.graphemeLeft
    let rightGrapheme := b.graphemeRight
    if !leftGrapheme.isEmpty && !rightGrapheme.isEmpty then
      let leftIndex := b.graphemeLeftIndex
      let b1 := b.replaceRange leftIndex b.insertionPoint rightGrapheme
      b1.replaceRange b1.insertionPoint rightIndex leftGrapheme
    else b

/-- `moveLineUp()`: no-op when the text before the cursor has no `\n`;
otherwise the cursor keeps its column offset, clamped to the previous
line's length (`lines[currentLineIndex - 1]` of the `\n`-split of the
text before the cursor; `targetLineStart` via
`lastIndexOf('\n', currentLineStart - 2) + 1`). -/
def LineBuffer.moveLineUp (b : LineBuffer) : LineBuffer :=
  let beforeCursor := b.lines.take b.insertionPoint
  let parts := beforeCursor.splitOn 10
  if parts.length ≤ 1 then b
  else
    let currentLineStart :=
      match jsLastIndexOf? beforeCursor 10 with
      | none => 0
      | some i => i + 1
    let currentLineOffset := b.insertionPoint - currentLineStart
    let targetLine := parts.getD (parts.length - 2) []
    let targetLineStart :=
      match jsLastIndexOfFrom? beforeCursor 10 ((currentLineStart : Int) - 2) with
      | none => 0
      | some i => i + 1
    ⟨b.lines, targetLineStart + min currentLineOffset targetLine.length⟩

/-- `moveLineDown()`: no-op when the text from the cursor on has no `\n`;
otherwise the cursor keeps its column offset, clamped to the next line's
length. -/
def LineBuffer.moveLineDown (b : LineBuffer) : LineBuffer :=
  let afterCursor := b.lines.drop b.insertionPoint
  let parts := afterCursor.splitOn 10
  if parts.length ≤ 1 then b
  else
    let beforeCursor := b.lines.take b.insertionPoint
    let currentLineStart :=
      match jsLastIndexOf? beforeCursor 10 with
      | none => 0
      | some i => i + 1
    let currentLineOffset := b.insertionPoint - currentLineStart
    let nextLineStart := b.insertionPoint + (parts.getD 0 []).length + 1
    let nextLine := parts.getD 1 []
    ⟨b.lines, nextLineStart + min currentLineOffset nextLine.length⟩

/-- `findCharRight(c, currentLine)`: first occurrence of `c` in
`substring(ip, searchEnd)` where `searchEnd` is the current line end or
the buffer end; `none` is the source's `null`. -/
def LineBuffer.findCharRight (b : LineBuffer) (c : Nat) (currentLine : Bool) :
    Option Nat :=
  let searchStart := b.insertionPoint
  let searchEnd := if currentLine then b.findCurrentLineEnd else b.lines.length
  let searchText := jsSubstring b.lines searchStart searchEnd
  (searchText.findIdx? (· == c)).map (fun i => searchStart + i)

/-- `findCharLeft(c, currentLine)`: last occurrence of `c` in
`substring(searchStart, ip)` where `searchStart` is the current line
start (`lastIndexOf('\n') + 1`, i.e. 0 when there is none) or 0. -/
def LineBuffer.findCharLeft (b : LineBuffer) (c : Nat) (currentLine : Bool) :
    Option Nat :=
  let searchEnd := b.insertionPoint
  let searchStart :=
    if currentLine then
      match jsLastIndexOf? (b.lines.take b.insertionPoint) 10 with
      | none => 0
      | some i => i + 1
    else 0
  let searchText := jsSubstring b.lines searchStart searchEnd
  (jsLastIndexOf? searchText c).map (fun i => searchStart + i)

/-- `moveRightUntil(c, currentLine)`: set the cursor to `findCharRight`
when found; returns the (possibly updated) insertion point alongside the
new state. -/
def LineBuffer.moveRightUntil (b : LineBuffer) (c : Nat) (currentLine : Bool) :
    LineBuffer × Nat :=
  match b.findCharRight c currentLine with
  | some found => (⟨b.lines, found⟩, found)
  | none => (b, b.insertionPoint)

/-- `moveRightBefore(c, currentLine)` (identical body to `moveRightUntil`
in the source). -/
def LineBuffer.moveRightBefore (b : LineBuffer) (c : Nat) (currentLine : Bool) :
    LineBuffer × Nat :=
  match b.findCharRight c currentLine with
  | some found => (⟨b.lines, found⟩, found)
  | none => (b, b.insertionPoint)

/-- `moveLeftUntil(c, currentLine)`. -/
def LineBuffer.moveLeftUntil (b : LineBuffer) (c : Nat) (currentLine : Bool) :
    LineBuffer × Nat :=
  match b.findCharLeft c currentLine with
  | some found => (⟨b.lines, found⟩, found)
  | none => (b, b.insertionPoint)

/-- `moveLeftBefore(c, currentLine)` (identical body to `moveLeftUntil`
in the source). -/
def LineBuffer.moveLeftBefore (b : LineBuffer) (c : Nat) (currentLine : Bool) :
    LineBuffer × Nat :=
  match b.findCharLeft c currentLine with
  | some found => (⟨b.lines, found⟩, found)
  | none => (b, b.insertionPoint)

/-- `deleteRightUntilChar(c, currentLine)`: clear `[ip, found)` when `c`
is found to the right. -/
def LineBuffer.deleteRightUntilChar (b : LineBuffer) (c : Nat)
    (currentLine : Bool) : LineBuffer :=
  match b.findCharRight c currentLine with
  | some found => b.clearRangeSafe b.insertionPoint found
  | none => b

/-- `deleteRightBeforeChar(c, currentLine)` (identical body to
`deleteRightUntilChar` in the source). -/
def LineBuffer.deleteRightBeforeChar (b : LineBuffer) (c : Nat)
    (currentLine : Bool) : LineBuffer :=
  match b.findCharRight c currentLine with
  | some found => b.clearRangeSafe b.insertionPoint found
  | none => b

/-- `deleteLeftUntilChar(c, currentLine)`. -/
def LineBuffer.deleteLeftUntilChar (b : LineBuffer) (c : Nat)
    (currentLine : Bool) : LineBuffer :=
  match b.findCharLeft c currentLine with
  | some found => b.clearRangeSafe found b.insertionPoint
  | none => b

/-- `deleteLeftBeforeChar(c, currentLine)` (identical body to
`deleteLeftUntilChar` in the source). -/
def LineBuffer.deleteLeftBeforeChar (b : LineBuffer) (c : Nat)
    (currentLine : Bool) : LineBuffer :=
  match b.findCharLeft c currentLine with
  | some found => b.clearRangeSafe found b.insertionPoint
  | none => b

/-- Scan loop of `findMatchingPair`: `i` is the current offset, `stack`
the offsets of unmatched left delimiters (most recent first; JS pushes
and pops at the array's end).  A left delimiter is pushed; a right
delimiter with an empty stack is skipped; otherwise the most recent left
offset is popped and the pair is returned when the right offset or the
popped left offset equals `cursor`. -/
def findMatchingPairAux (l r cursor : Nat) :
    List Nat → Nat → List Nat → Option (Nat × Nat)
  | [], _, _ => none
  | u :: rest, i, stack =>
    if u == l then findMatchingPairAux l r cursor rest (i + 1) (i :: stack)
    else if u == r then
      match stack with
      | [] => findMatchingPairAux l r cursor rest (i + 1) []
      | li :: stack' =>
        if i == cursor || li == cursor then some (li, i)
        else findMatchingPairAux l r cursor rest (i + 1) stack'
    else findMatchingPairAux l r cursor rest (i + 1) stack

/-- `findMatchingPair(leftChar, rightChar, cursor)`. -/
def LineBuffer.findMatchingPair (b : LineBuffer) (l r cursor : Nat) :
    Option (Nat × Nat) :=
  findMatchingPairAux l r cursor b.lines 0 []

/-- The range-deletion law exactly as the specification states it:
normalize `start ≤ end` by swapping, clamp `end` to the buffer length,
remove the code units at positions in `[start, end)`, and adjust the
cursor by the three-case rule (unchanged below `start`; to `start` inside
`[start, end]`; shifted left by `end - start` above `end`). -/
def clearRangeSafeSpec (lines : List Nat) (ip : Int) (start0 end0 : Int) :
    List Nat × Int :=
  let s := min start0 end0
  let e := min (max start0 end0) (lines.length : Int)
  let newLines := lines.take s.toNat ++ lines.drop e.toNat
  let newIp :=
    if ip < s then ip
    else if ip ≤ e then s
    else ip - (e - s)
  (newLines, newIp)

/-- The range-replacement law exactly as the claim states it: same
normalization and clamping, `[start, end)` replaced by `repl`, and the
claim's cursor rule — unchanged below `start`, to `start` inside
`[start, end]`, shifted by `repl.length - (end - start)` above `end`. -/
def replaceRangeSpecClaim (lines : List Nat) (ip : Int) (start0 end0 : Int)
    (repl : List Nat) : List Nat × Int :=
  let s := min start0 end0
  let e := min (max start0 end0) (lines.length : Int)
  let newLines := lines.take s.toNat ++ repl ++ lines.drop e.toNat
  let newIp :=
    if ip < s then ip
    else if ip ≤ e then s
    else ip + (repl.length : Int) - (e - s)
  (newLines, newIp)

/-- The corrected range-replacement law: as `replaceRangeSpecClaim`, but
the call is a no-op when the normalized `start` is ≥ the buffer length
(so `replaceRange(length, length, text)` never appends), a cursor at or
below `start` is unchanged, and a cursor in `(start, end]` moves to
`start + repl.length` rather than to `start`. -/
def replaceRangeSpecAmended (lines : List Nat) (ip : Int) (start0 end0 : Int)
    (repl : List Nat) : List Nat × Int :=
  let s := min start0 end0
  let e := min (max start0 end0) (lines.length : Int)
  if s ≥ (lines.length : Int) then (lines, ip)
  else
    let newLines := lines.take s.toNat ++ repl ++ lines.drop e.toNat
    let newIp :=
      if ip ≤ s then ip
      else if ip ≤ e then s + (repl.length : Int)
      else ip + (repl.length : Int) - (e - s)
    (newLines, newIp)

/-- All pairs popped during the left-to-right scan, in pop order: the
stack discipline of the specification (each right delimiter pops the most
recent unmatched left-delimiter offset; right delimiters with an empty
stack are skipped; left delimiters that are never popped contribute
nothing). -/
def poppedPairsAux (l r : Nat) : List Nat → Nat → List Nat → List (Nat × Nat)
  | [], _, _ => []
  | u :: rest, i, stack =>
    if u == l then poppedPairsAux l r rest (i + 1) (i :: stack)
    else if u == r then
      match stack with
      | [] => poppedPairsAux l r rest (i + 1) []
      | li :: stack' => (li, i) :: poppedPairsAux l r rest (i + 1) stack'
    else poppedPairsAux l r rest (i + 1) stack

/-- The matching-pair search as the specification describes it: among the
pairs popped by the stack scan, the first one (in pop order) whose right
or left offset equals `cursor`; the explicit absent value otherwise. -/
def findMatchingPairSpec (lines : List Nat) (l r cursor : Nat) :
    Option (Nat × Nat) :=
  (poppedPairsAux l r lines 0 []).find? (fun p => p.2 == cursor || p.1 == cursor)


/-- `clearRangeSafeFn` on the empty buffer with nonnegative bounds is the
identity (the `start ≥ length` early return always fires). -/
theorem clearRangeSafeFn_nil (ip s e : Int) (hs : 0 ≤ s) (he : 0 ≤ e) :
    clearRangeSafeFn [] ip s e = ([], ip) := by
  unfold clearRangeSafeFn
  have h : (if s > e then e else s) ≥ (([] : List Nat).length : Int) := by
    simp only [List.length_nil, Nat.cast_zero]
    split <;> omega
  rw [if_pos h]

/-- Claim C1 (code bug): the state reached from `LineBuffer.from("😀")` by
`moveToStart()` then `moveWordRight()` — three public mutating operations,
no direct insertion-point assignment — has `isValid() = false`: the word
tokenizer works on UTF-16 code units, so `moveWordRight` stops at offset 1,
strictly inside the surrogate pair `[0xD83D, 0xDE00]` whose only grapheme
boundaries are 0 and 2. -/
theorem wordMove_reaches_invalid_state :
    ((LineBuffer.fromString [0xD83D, 0xDE00]).moveToStart.moveWordRight).isValid
        = false ∧
    ((LineBuffer.fromString [0xD83D, 0xDE00]).moveToStart.moveWordRight).insertionPoint
        = 1 ∧
    getGraphemeIndices [0xD83D, 0xDE00] = [0, 2] := by
  decide

/-- Claim C5 (code bug): on the single-cluster buffer `"😀"` (code units
`[0xD83D, 0xDE00]`) with cursor 0, `moveWordRight()` sets the cursor to 1 —
an offset strictly inside the cluster (the boundaries are exactly 0 and 2)
— not to the buffer length 2 required by the claim. -/
theorem moveWordRight_splits_surrogate_pair :
    (LineBuffer.mk [0xD83D, 0xDE00] 0).moveWordRight
        = LineBuffer.mk [0xD83D, 0xDE00] 1 ∧
    getGraphemeIndices [0xD83D, 0xDE00] = [0, 2] ∧
    ¬ (getGraphemeIndices [0xD83D, 0xDE00]).contains 1 := by
  decide

/-- Claim C7 (code bug): on `"word and another one"` with cursor 0,
`moveWordRightEnd()` sets the cursor to 4 (the offset of the whitespace
token after `"word"`), not to 3 as the claim — and the repository's own
test (`['word and another one', 0, 3]`) — require. -/
theorem moveWordRightEnd_scenarioB_divergence :
    (LineBuffer.mk [119, 111, 114, 100, 32, 97, 110, 100, 32, 97, 110, 111,
        116, 104, 101, 114, 32, 111, 110, 101] 0).moveWordRightEnd
      = LineBuffer.mk [119, 111, 114, 100, 32, 97, 110, 100, 32, 97, 110,
        111, 116, 104, 101, 114, 32, 111, 110, 101] 4 ∧
    (4 : Nat) ≠ 3 := by
  decide

/-- Claim C8 (code bug): on `"ab"` (code units `[97, 98]`) with cursor 0,
`swapGraphemes()` leaves the buffer completely unchanged — the grapheme
left of cursor 0 is the empty string, which is falsy in JS, so the guard
skips both `replaceRange` calls — instead of producing `"ba"` with cursor
1 as the claim and the repository's own test (`['ab', 0, 'ba', 1]`)
require. -/
theorem swapGraphemes_scenarioE_divergence :
    (LineBuffer.mk [97, 98] 0).swapGraphemes = LineBuffer.mk [97, 98] 0 ∧
    LineBuffer.mk [97, 98] 0 ≠ LineBuffer.mk [98, 97] 1 := by
  decide

/-- Claim C6: on the empty buffer (`lines = []`, cursor 0) every
navigation method leaves the state unchanged (cursor at 0) and every
deletion method leaves the state unchanged (buffer still empty), for all
character arguments and `currentLine` flags of the until/before families
and all natural range arguments of `clearRangeSafe`. -/
theorem empty_buffer_operations_noop :
    (LineBuffer.mk [] 0).moveToStart = LineBuffer.mk [] 0 ∧
    (LineBuffer.mk [] 0).moveToLineStart = LineBuffer.mk [] 0 ∧
    (LineBuffer.mk [] 0).moveToLineEnd = LineBuffer.mk [] 0 ∧
    (LineBuffer.mk [] 0).moveToEnd = LineBuffer.mk [] 0 ∧
    (LineBuffer.mk [] 0).moveLeft = LineBuffer.mk [] 0 ∧
    (LineBuffer.mk [] 0).moveRight = LineBuffer.mk [] 0 ∧
    (LineBuffer.mk [] 0).moveWordLeft = LineBuffer.mk [] 0 ∧
    (LineBuffer.mk [] 0).moveBigWordLeft = LineBuffer.mk [] 0 ∧
    (LineBuffer.mk [] 0).moveWordRight = LineBuffer.mk [] 0 ∧
    (LineBuffer.mk [] 0).moveWordRightStart = LineBuffer.mk [] 0 ∧
    (LineBuffer.mk [] 0).moveBigWordRightStart = LineBuffer.mk [] 0 ∧
    (LineBuffer.mk [] 0).moveWordRightEnd = LineBuffer.mk [] 0 ∧
    (LineBuffer.mk [] 0).moveBigWordRightEnd = LineBuffer.mk [] 0 ∧
    (LineBuffer.mk [] 0).moveLineUp = LineBuffer.mk [] 0 ∧
    (LineBuffer.mk [] 0).moveLineDown = LineBuffer.mk [] 0 ∧
    (∀ (c : Nat) (flag : Bool),
      ((LineBuffer.mk [] 0).moveRightUntil c flag).1 = LineBuffer.mk [] 0) ∧
    (∀ (c : Nat) (flag : Bool),
      ((LineBuffer.mk [] 0).moveRightBefore c flag).1 = LineBuffer.mk [] 0) ∧
    (∀ (c : Nat) (flag : Bool),
      ((LineBuffer.mk [] 0).moveLeftUntil c flag).1 = LineBuffer.mk [] 0) ∧
    (∀ (c : Nat) (flag : Bool),
      ((LineBuffer.mk [] 0).moveLeftBefore c flag).1 = LineBuffer.mk [] 0) ∧
    (LineBuffer.mk [] 0).clear = LineBuffer.mk [] 0 ∧
    (LineBuffer.mk [] 0).clearToEnd = LineBuffer.mk [] 0 ∧
    (LineBuffer.mk [] 0).clearToLineEnd = LineBuffer.mk [] 0 ∧
    (LineBuffer.mk [] 0).clearToInsertionPoint = LineBuffer.mk [] 0 ∧
    (∀ s t : Nat,
      (LineBuffer.mk [] 0).clearRangeSafe s t = LineBuffer.mk [] 0) ∧
    (LineBuffer.mk [] 0).deleteLeftGrapheme = LineBuffer.mk [] 0 ∧
    (LineBuffer.mk [] 0).deleteRightGrapheme = LineBuffer.mk [] 0 ∧
    (LineBuffer.mk [] 0).deleteWordLeft = LineBuffer.mk [] 0 ∧
    (LineBuffer.mk [] 0).deleteWordRight = LineBuffer.mk [] 0 ∧
    (∀ (c : Nat) (flag : Bool),
      (LineBuffer.mk [] 0).deleteRightUntilChar c flag = LineBuffer.mk [] 0) ∧
    (∀ (c : Nat) (flag : Bool),
      (LineBuffer.mk [] 0).deleteRightBeforeChar c flag = LineBuffer.mk [] 0) ∧
    (∀ (c : Nat) (flag : Bool),
      (LineBuffer.mk [] 0).deleteLeftUntilChar c flag = LineBuffer.mk [] 0) ∧
    (∀ (c : Nat) (flag : Bool),
      (LineBuffer.mk [] 0).deleteLeftBeforeChar c flag = LineBuffer.mk [] 0) := by
  have hclr : ∀ s t : Nat,
      (LineBuffer.mk [] 0).clearRangeSafe s t = LineBuffer.mk [] 0 := by
    intro s t
    simp only [LineBuffer.clearRangeSafe,
      clearRangeSafeFn_nil _ _ _ (Int.natCast_nonneg s) (Int.natCast_nonneg t)]
    rfl
  refine ⟨by decide, by decide, by decide, by decide, by decide, by decide,
    by decide, by decide, by decide, by decide, by decide, by decide,
    by decide, by decide, by decide,
    ?_, ?_, ?_, ?_,
    by decide, by decide, by decide, by decide,
    hclr,
    by decide, by decide, by decide, by decide,
    ?_, ?_, ?_, ?_⟩ <;>
  · intro c flag
    cases flag <;> rfl

/-- Claim C2: for every buffer, every cursor within the buffer (invariant
I2), and all integer arguments, `clearRangeSafe` behaves exactly as the
specification's range-deletion law `clearRangeSafeSpec` states: swap to
normalize `start ≤ end`, clamp `end` to the length, remove `[start, end)`,
and move the cursor by the three-case rule. -/
theorem clearRangeSafe_matches_description
    (lines : List Nat) (ip start0 end0 : Int)
    (h : ip ≤ (lines.length : Int)) :
    clearRangeSafeFn lines ip start0 end0
      = clearRangeSafeSpec lines ip start0 end0 := by
  have hmin : (if start0 > end0 then end0 else start0) = min start0 end0 := by
    split <;> omega
  have hmax : (if start0 > end0 then start0 else end0) = max start0 end0 := by
    split <;> omega
  simp only [clearRangeSafeFn, clearRangeSafeSpec, hmin, hmax]
  by_cases hE : min start0 end0 ≥ (lines.length : Int)
  · rw [if_pos hE]
    have hminmax : min (max start0 end0) (lines.length : Int)
        = (lines.length : Int) := by omega
    rw [hminmax]
    simp only [Prod.mk.injEq]
    constructor
    · rw [List.take_of_length_le (by omega), Int.toNat_natCast,
        List.drop_length, List.append_nil]
    · split_ifs <;> omega
  · rw [if_neg hE]
    simp only [Prod.mk.injEq]
    refine ⟨trivial, ?_⟩
    split_ifs <;> omega

/-- Witness for C2 at the buffer `"abc"`, cursor 2, arguments (1, 2). -/
theorem clearRangeSafe_matches_description_witness :
    ((2 : Int) ≤ ((([97, 98, 99] : List Nat)).length : Int)) ∧
    clearRangeSafeFn [97, 98, 99] 2 1 2 = clearRangeSafeSpec [97, 98, 99] 2 1 2 :=
  ⟨by decide, clearRangeSafe_matches_description [97, 98, 99] 2 1 2 (by decide)⟩

/-- Claim C3 counterexample: on `"abcd"` with cursor 2,
`replaceRange(1, 3, "XY")` moves the cursor to `start + len(text) = 3`,
not to `start = 1` as the claim's middle case states; and on `"ab"`,
`replaceRange(2, 2, "X")` (i.e. `replaceRange(length, length, text)`) is a
no-op — it does not append — because of the `start ≥ length` early
return, while the claim's law would produce `"abX"`. -/
theorem replaceRange_claim_counterexample :
    replaceRangeFn [97, 98, 99, 100] 2 1 3 [88, 89] = ([97, 88, 89, 100], 3) ∧
    replaceRangeSpecClaim [97, 98, 99, 100] 2 1 3 [88, 89]
      = ([97, 88, 89, 100], 1) ∧
    (3 : Int) ≠ 1 ∧
    replaceRangeFn [97, 98] 2 2 2 [88] = ([97, 98], 2) ∧
    replaceRangeSpecClaim [97, 98] 2 2 2 [88] = ([97, 98, 88], 2) := by
  decide

/-- Claim C3 as amended: for every buffer, cursor and replacement text and
all integer arguments, `replaceRange` applies the same
normalization/clamping as `clearRangeSafe`, is a no-op when the
normalized `start` is ≥ the buffer length (so `replaceRange(length,
length, text)` never appends), and otherwise replaces `[start, end)` with
the text; the cursor is unchanged when ≤ `start`, becomes
`start + len(text)` when in `(start, end]`, and is shifted by
`len(text) - (end - start)` when past `end`. -/
theorem replaceRange_amended_description
    (lines : List Nat) (ip start0 end0 : Int) (repl : List Nat) :
    replaceRangeFn lines ip start0 end0 repl
      = replaceRangeSpecAmended lines ip start0 end0 repl := by
  have hmin : (if start0 > end0 then end0 else start0) = min start0 end0 := by
    split <;> omega
  have hmax : (if start0 > end0 then start0 else end0) = max start0 end0 := by
    split <;> omega
  simp only [replaceRangeFn, replaceRangeSpecAmended, hmin, hmax]
  by_cases hE : min start0 end0 ≥ (lines.length : Int)
  · rw [if_pos hE, if_pos hE]
  · rw [if_neg hE, if_neg hE]
    simp only [Prod.mk.injEq]
    refine ⟨trivial, ?_⟩
    split_ifs <;> omega

/-- The scan of `findMatchingPair` with early return equals taking the
first pair touching the cursor from the full pop-ordered pair list, for
every start offset and stack. -/
theorem findMatchingPairAux_eq_find (l r cursor : Nat) (text : List Nat) :
    ∀ (i : Nat) (stack : List Nat),
    findMatchingPairAux l r cursor text i stack
      = (poppedPairsAux l r text i stack).find?
          (fun p => p.2 == cursor || p.1 == cursor) := by
  induction text with
  | nil => intro i stack; rfl
  | cons u rest ih =>
    intro i stack
    simp only [findMatchingPairAux, poppedPairsAux]
    by_cases h1 : u == l
    · simp only [h1, if_true]
      exact ih (i + 1) (i :: stack)
    · simp only [h1, Bool.false_eq_true, if_false]
      by_cases h2 : u == r
      · simp only [h2, if_true]
        cases stack with
        | nil => exact ih (i + 1) []
        | cons li stack' =>
          dsimp only
          by_cases h3 : (i == cursor || li == cursor)
          · rw [if_pos h3, List.find?_cons_of_pos]
            simpa using h3
          · rw [if_neg h3, List.find?_cons_of_neg]
            · exact ih (i + 1) stack'
            · simpa using h3
      · simp only [h2, Bool.false_eq_true, if_false]
        exact ih (i + 1) stack

/-- Claim C9: `findMatchingPair` computes exactly what the specification's
stack description says — the first pair, in pop order, of the
stack-matched delimiter pairs whose left or right offset equals the
cursor, and `none` when no popped pair touches the cursor; in particular
on `"(hello) world"`, `findMatchingPair('(', ')', 6)` returns `[0, 6]`. -/
theorem findMatchingPair_matches_description :
    (∀ (b : LineBuffer) (l r cursor : Nat),
      b.findMatchingPair l r cursor = findMatchingPairSpec b.lines l r cursor) ∧
    (LineBuffer.mk [40, 104, 101, 108, 108, 111, 41, 32, 119, 111, 114, 108,
      100] 0).findMatchingPair 40 41 6 = some (0, 6) := by
  refine ⟨fun b l r cursor => findMatchingPairAux_eq_find l r cursor b.lines 0 [],
    by decide⟩

/-- Claim C10: whenever the code unit at the cursor is `\n` (10) and the
one before it is `\r` (13) — a cursor between the two halves of a
`"\r\n"`, which is a valid and reachable position, as the two closed
conjuncts show for `LineBuffer.from("\r\n")` followed by `moveLeft()` —
`findCurrentLineEnd()` returns `insertionPoint - 1`, strictly left of the
cursor, and `moveToLineEnd()` therefore moves the cursor leftwards onto
the `\r`. -/
theorem crlf_lineEnd_moves_left (b : LineBuffer)
    (h0 : 0 < b.insertionPoint)
    (hn : b.lines.get? b.insertionPoint = some 10)
    (hr : b.lines.get? (b.insertionPoint - 1) = some 13) :
    b.findCurrentLineEnd = b.insertionPoint - 1 ∧
    b.moveToLineEnd = ⟨b.lines, b.insertionPoint - 1⟩ ∧
    b.insertionPoint - 1 < b.insertionPoint ∧
    ((LineBuffer.fromString [13, 10]).moveLeft).isValid = true ∧
    (LineBuffer.fromString [13, 10]).moveLeft = LineBuffer.mk [13, 10] 1 := by
  obtain ⟨hlt, hget⟩ := List.get?_eq_some.mp hn
  have hdrop : b.lines.drop b.insertionPoint
      = 10 :: b.lines.drop (b.insertionPoint + 1) := by
    rw [List.drop_eq_getElem_cons hlt]
    rw [show b.lines[b.insertionPoint] = 10 from hget]
  have hfc : b.findCurrentLineEnd = b.insertionPoint - 1 := by
    unfold LineBuffer.findCurrentLineEnd
    rw [hdrop]
    simp only [List.findIdx?_cons, beq_self_eq_true, if_true, Nat.zero_add]
    rw [if_pos ⟨h0, hr⟩]
  refine ⟨hfc, ?_, by omega, by decide, by decide⟩
  unfold LineBuffer.moveToLineEnd
  rw [hfc]

/-- Witness for C10 at the buffer `"a\r\n"` with cursor 2 (between the
`\r` and the `\n`). -/
theorem crlf_lineEnd_moves_left_witness :
    (LineBuffer.mk [97, 13, 10] 2).findCurrentLineEnd = 1 ∧
    (LineBuffer.mk [97, 13, 10] 2).moveToLineEnd = LineBuffer.mk [97, 13, 10] 1 := by
  have h := crlf_lineEnd_moves_left (LineBuffer.mk [97, 13, 10] 2)
    (by decide) (by decide) (by decide)
  exact ⟨h.1, h.2.1⟩

/-- The code-point elements of `arrayFrom` cover the string: their
lengths sum to the code-unit length. -/
theorem arrayFrom_sum : (l : List Nat) →
    ((arrayFrom l).map List.length).sum = l.length
  | [] => by simp [arrayFrom]
  | [u] => by simp [arrayFrom]
  | u :: v :: rest => by
    rw [arrayFrom]
    by_cases h : (isHighSurrogate u && isLowSurrogate v) = true
    · rw [if_pos h]
      simp [arrayFrom_sum rest]
      omega
    · rw [if_neg h]
      simp [arrayFrom_sum (v :: rest)]
      omega

/-- Every element of `arrayFrom` is a nonempty code-unit list (one unit,
or a surrogate pair). -/
theorem arrayFrom_pos : (l : List Nat) → ∀ c ∈ arrayFrom l, 0 < c.length
  | [] => by simp [arrayFrom]
  | [u] => by simp [arrayFrom]
  | u :: v :: rest => by
    rw [arrayFrom]
    by_cases h : (isHighSurrogate u && isLowSurrogate v) = true
    · rw [if_pos h]
      intro c hc
      rcases List.mem_cons.mp hc with rfl | hc
      · simp
      · exact arrayFrom_pos rest c hc
    · rw [if_neg h]
      intro c hc
      rcases List.mem_cons.mp hc with rfl | hc
      · simp
      · exact arrayFrom_pos (v :: rest) c hc

/-- Every entry of `graphemeIndicesFrom pos cs` lies between `pos` and
`pos` plus the total length of `cs`. -/
theorem graphemeIndicesFrom_bounds (cs : List (List Nat)) :
    ∀ pos x, x ∈ graphemeIndicesFrom pos cs →
      pos ≤ x ∧ x ≤ pos + (cs.map List.length).sum := by
  induction cs with
  | nil =>
    intro pos x hx
    simp only [graphemeIndicesFrom, List.mem_singleton] at hx
    omega
  | cons c cs ih =>
    intro pos x hx
    simp only [graphemeIndicesFrom, List.mem_cons] at hx
    simp only [List.map_cons, List.sum_cons]
    rcases hx with rfl | hx
    · omega
    · have := ih (pos + c.length) x hx
      omega

/-- `graphemeIndicesFrom pos cs` starts with `pos`. -/
theorem graphemeIndicesFrom_cons (pos : Nat) (cs : List (List Nat)) :
    ∃ t, graphemeIndicesFrom pos cs = pos :: t := by
  cases cs <;> exact ⟨_, rfl⟩

/-- With nonempty elements, the boundary offsets are strictly
increasing. -/
theorem graphemeIndicesFrom_pairwise (cs : List (List Nat)) :
    ∀ pos, (∀ c ∈ cs, 0 < c.length) →
      (graphemeIndicesFrom pos cs).Pairwise (· < ·) := by
  induction cs with
  | nil => intro pos _; simp [graphemeIndicesFrom]
  | cons c cs ih =>
    intro pos h
    simp only [graphemeIndicesFrom]
    rw [List.pairwise_cons]
    constructor
    · intro x hx
      have hb := graphemeIndicesFrom_bounds cs (pos + c.length) x hx
      have hc : 0 < c.length := h c (List.mem_cons_self _ _)
      omega
    · exact ih (pos + c.length) (fun d hd => h d (List.mem_cons_of_mem _ hd))

/-- The total length is always a boundary offset. -/
theorem graphemeIndicesFrom_last_mem (cs : List (List Nat)) :
    ∀ pos, pos + (cs.map List.length).sum ∈ graphemeIndicesFrom pos cs := by
  induction cs with
  | nil => intro pos; simp [graphemeIndicesFrom]
  | cons c cs ih =>
    intro pos
    simp only [graphemeIndicesFrom, List.map_cons, List.sum_cons,
      List.mem_cons]
    right
    rw [← Nat.add_assoc]
    exact ih (pos + c.length)

/-- `getGraphemeIndices` starts with 0. -/
theorem getGraphemeIndices_cons (lines : List Nat) :
    ∃ t, getGraphemeIndices lines = 0 :: t :=
  graphemeIndicesFrom_cons 0 (arrayFrom lines)

/-- Entries of `getGraphemeIndices` are at most the buffer length. -/
theorem mem_getGraphemeIndices_le (lines : List Nat) (x : Nat)
    (h : x ∈ getGraphemeIndices lines) : x ≤ lines.length := by
  have := (graphemeIndicesFrom_bounds (arrayFrom lines) 0 x h).2
  rwa [arrayFrom_sum, Nat.zero_add] at this

/-- The grapheme boundary offsets are strictly increasing. -/
theorem getGraphemeIndices_pairwise (lines : List Nat) :
    (getGraphemeIndices lines).Pairwise (· < ·) :=
  graphemeIndicesFrom_pairwise (arrayFrom lines) 0 (arrayFrom_pos lines)

/-- The buffer length is always a grapheme boundary. -/
theorem length_mem_getGraphemeIndices (lines : List Nat) :
    lines.length ∈ getGraphemeIndices lines := by
  have := graphemeIndicesFrom_last_mem (arrayFrom lines) 0
  rwa [arrayFrom_sum, Nat.zero_add] at this

/-- A valid cursor is a grapheme boundary offset. -/
theorem isValid_mem (b : LineBuffer) (h : b.isValid = true) :
    b.insertionPoint ∈ getGraphemeIndices b.lines := by
  unfold LineBuffer.isValid at h
  by_cases hgt : b.insertionPoint > b.lines.length
  · rw [if_pos hgt] at h
    exact absurd h (by simp)
  · rw [if_neg hgt] at h
    rw [Bool.or_eq_true] at h
    rcases h with hany | hlen
    · obtain ⟨x, hx, hxe⟩ := List.any_eq_true.mp hany
      rwa [show x = b.insertionPoint from by simpa using hxe] at hx
    · rw [show b.insertionPoint = b.lines.length from by simpa using hlen]
      exact length_mem_getGraphemeIndices b.lines

/-- At cursor 0, `graphemeLeftIndex` is 0 (the cursor is found at index 0
of the boundary list, hitting the `currentIndex <= 0` branch). -/
theorem graphemeLeftIndex_zero (lines : List Nat) :
    (LineBuffer.mk lines 0).graphemeLeftIndex = 0 := by
  unfold LineBuffer.graphemeLeftIndex
  obtain ⟨t, ht⟩ := getGraphemeIndices_cons lines
  simp [ht, List.findIdx_cons]

/-- For a valid nonzero cursor, `graphemeLeftIndex` is strictly left of
the cursor: the cursor is found in the strictly increasing boundary list
at a positive index, and the previous entry is returned. -/
theorem graphemeLeftIndex_lt (lines : List Nat) (ip : Nat)
    (hmem : ip ∈ getGraphemeIndices lines) (hne : ip ≠ 0) :
    (LineBuffer.mk lines ip).graphemeLeftIndex < ip := by
  unfold LineBuffer.graphemeLeftIndex
  have hex : ∃ x ∈ getGraphemeIndices lines, (x == ip) = true :=
    ⟨ip, hmem, beq_self_eq_true ip⟩
  have hfi : (getGraphemeIndices lines).findIdx (· == ip)
      < (getGraphemeIndices lines).length :=
    List.findIdx_lt_length_of_exists hex
  have hval : (getGraphemeIndices lines).get
      ⟨(getGraphemeIndices lines).findIdx (· == ip), hfi⟩ = ip := by
    have := @List.findIdx_getElem _ (· == ip) (getGraphemeIndices lines) hfi
    simpa [List.get_eq_getElem] using this
  have hfi0 : (getGraphemeIndices lines).findIdx (· == ip) ≠ 0 := by
    intro h0
    apply hne
    have h2 := List.getElem?_eq_getElem hfi
    rw [List.get_eq_getElem] at hval
    rw [hval, h0] at h2
    obtain ⟨t, ht⟩ := getGraphemeIndices_cons lines
    rw [ht] at h2
    simp at h2
    exact h2.symm
  rw [if_neg (by push_neg; exact ⟨Nat.ne_of_lt hfi, hfi0⟩)]
  have hfi1 : (getGraphemeIndices lines).findIdx (· == ip) - 1
      < (getGraphemeIndices lines).length := by omega
  have hpw := List.pairwise_iff_getElem.mp (getGraphemeIndices_pairwise lines)
    ((getGraphemeIndices lines).findIdx (· == ip) - 1)
    ((getGraphemeIndices lines).findIdx (· == ip)) hfi1 hfi (by omega)
  have hgd : (getGraphemeIndices lines).getD
      ((getGraphemeIndices lines).findIdx (· == ip) - 1) 0
      = (getGraphemeIndices lines).get
        ⟨(getGraphemeIndices lines).findIdx (· == ip) - 1, hfi1⟩ := by
    rw [List.getD_eq_getElem?_getD, List.getElem?_eq_getElem hfi1]
    simp [List.get_eq_getElem]
  rw [hgd, List.get_eq_getElem]
  rw [List.get_eq_getElem] at hval
  exact lt_of_lt_of_eq hpw hval

/-- Claim C4: for every valid buffer state, deleting the grapheme left of
the cursor and reinserting the same text (`deleteLeftGrapheme()` followed
by `insertStr(graphemeLeft())`) restores the original buffer text and the
original insertion point. -/
theorem deleteLeftGrapheme_insert_roundtrip (b : LineBuffer)
    (h : b.isValid = true) :
    b.deleteLeftGrapheme.insertStr b.graphemeLeft = b := by
  obtain ⟨lines, ip⟩ := b
  have hmem : ip ∈ getGraphemeIndices lines := isValid_mem _ h
  by_cases hip : ip = 0
  · subst hip
    have hg : (LineBuffer.mk lines 0).graphemeLeft = [] := by
      unfold LineBuffer.graphemeLeft
      rw [graphemeLeftIndex_zero]
      simp [jsSubstring]
    have hd : (LineBuffer.mk lines 0).deleteLeftGrapheme = LineBuffer.mk lines 0 := by
      unfold LineBuffer.deleteLeftGrapheme
      rw [graphemeLeftIndex_zero]
      unfold LineBuffer.clearRangeSafe clearRangeSafeFn
      simp only [Nat.cast_zero, gt_iff_lt, lt_irrefl, if_false]
      split
      · rfl
      · simp
    rw [hd, hg]
    simp [LineBuffer.insertStr]
  · have hlt : (LineBuffer.mk lines ip).graphemeLeftIndex < ip :=
      graphemeLeftIndex_lt lines ip hmem hip
    have hle : ip ≤ lines.length := mem_getGraphemeIndices_le lines ip hmem
    set L := (LineBuffer.mk lines ip).graphemeLeftIndex with hL
    have hd : (LineBuffer.mk lines ip).deleteLeftGrapheme
        = LineBuffer.mk (lines.take L ++ lines.drop ip) L := by
      unfold LineBuffer.deleteLeftGrapheme
      rw [← hL]
      unfold LineBuffer.clearRangeSafe clearRangeSafeFn
      have h1 : ¬((L : Int) > (ip : Int)) := by omega
      simp only [if_neg h1]
      have h2 : ¬((L : Int) ≥ ((lines.length : Nat) : Int)) := by omega
      rw [if_neg h2]
      have h3 : min ((ip : Nat) : Int) ((lines.length : Nat) : Int) = (ip : Int) := by
        omega
      rw [h3]
      have h4 : ((ip : Int) > (L : Int)) := by omega
      rw [if_pos h4, if_neg (lt_irrefl _)]
      simp [Int.toNat_natCast]
    have hg : (LineBuffer.mk lines ip).graphemeLeft = (lines.take ip).drop L := by
      unfold LineBuffer.graphemeLeft jsSubstring
      rw [← hL, Nat.max_eq_right hlt.le, Nat.min_eq_left hlt.le]
    rw [hd, hg]
    unfold LineBuffer.insertStr
    have hlen : (lines.take L).length = L := by
      rw [List.length_take]; omega
    simp only [List.take_left' hlen, List.drop_left' hlen]
    have hsplice : lines.take L ++ (lines.take ip).drop L = lines.take ip := by
      have h5 : (lines.take ip).take L = lines.take L := by
        rw [List.take_take]
        congr 1
        omega
      rw [← h5, List.take_append_drop]
    simp only [LineBuffer.mk.injEq]
    constructor
    · rw [hsplice, List.take_append_drop]
    · rw [List.length_drop, List.length_take]
      omega

/-- Witness for C4 at the valid buffer `"ab"` with cursor 1. -/
theorem deleteLeftGrapheme_insert_roundtrip_witness :
    (LineBuffer.mk [97, 98] 1).isValid = true ∧
    (LineBuffer.mk [97, 98] 1).deleteLeftGrapheme.insertStr
      (LineBuffer.mk [97, 98] 1).graphemeLeft = LineBuffer.mk [97, 98] 1 :=
  ⟨by decide,
   deleteLeftGrapheme_insert_roundtrip (LineBuffer.mk [97, 98] 1) (by decide)⟩
